import Mathlib

/-!
# golarm: progress bar, countdown loop, cancellation signal, wait time, sound-file dispatch

A shallow embedding of `bar.go` and `main.go`.

Modelling conventions
* `float64` values (`Bar.total`, `Bar.current`, `waitTime.Seconds()`) are exact rationals `ℚ`:
  all arithmetic is taken exactly, rounding, infinities and NaN are outside the model.
* Go `int` is `Int` (no wrap-around: the quantities involved are column counts).
* Go's conversion `int(x)` of a float discards the fraction (`goInt`).
* A `for n := 0; n < k; n++ { out += g }` loop is a fuelled recursion on the loop counter.
* Calls into the Go runtime or the standard library that the repository does not define
  (`os.Open`, the decoders, `user.Current`, `os.Stat`, the clock) are parameters.
-/

namespace Golarm

/-! ## bar.go -/

/-- Go's `int(x)` for a floating-point `x`: the fractional part is discarded
(rounding toward zero). -/
def goInt (x : ℚ) : Int := Int.tdiv x.num (x.den : Int)

/-- The `Bar` struct of `bar.go`. -/
structure Bar where
  total : ℚ
  current : ℚ
  width : Int
  head : String
  empty : String
  fill : String
  left : String
  right : String
deriving DecidableEq

/-- The constructor `New(total)`. -/
def New (total : ℚ) : Bar :=
  { total := total
    current := 0
    width := 70
    head := ">"
    empty := "-"
    fill := "="
    left := "["
    right := "]" }

/-- The method `b.Increment()`: the bar after the call and the returned `finished`. -/
def Bar.Increment (b : Bar) : Bar × Bool :=
  let b1 := { b with current := b.current + 1 }
  if b1.current ≥ b1.total then (b1, true) else (b1, false)

/-- The loop `for ; n < bound; n++ { out += glyph }`, started at counter `n`;
`fuel` bounds the number of iterations. -/
def appendLoop (glyph : String) (bound : Int) : Nat → Int → String → String
  | 0, _, out => out
  | fuel + 1, n, out =>
    if n < bound then appendLoop glyph bound fuel (n + 1) (out ++ glyph) else out

/-- The loop `for n := 0; n < bound; n++ { out += glyph }` run to completion:
`bound.toNat` iterations suffice. -/
def appendTimes (glyph : String) (bound : Int) (out : String) : String :=
  appendLoop glyph bound bound.toNat 0 out

/-- The local `place` of `GetString`. -/
def Bar.place (b : Bar) : Int :=
  let step := (b.width : ℚ) / b.total
  goInt (b.current * step)

/-- The method `b.GetString()`. -/
def Bar.GetString (b : Bar) : String :=
  let place := b.place
  let out := b.left
  let out := appendTimes b.fill place out
  let out := out ++ b.head
  let out := appendTimes b.empty (b.width - place) out
  let out := out ++ b.right
  out

/-- The string `OutputDone` prints after flushing the line. -/
def Bar.doneString (b : Bar) : String :=
  let out := b.left
  let out := appendTimes b.fill b.width out
  let out := out ++ b.head
  let out := out ++ b.right
  out ++ "\n"

/-- A string made of `k` copies of `glyph`. -/
def copies (glyph : String) : Nat → String
  | 0 => ""
  | k + 1 => glyph ++ copies glyph k

/-- The number of `Increment` calls applied in sequence to a bar (the bar only). -/
def incrementN : Nat → Bar → Bar
  | 0, b => b
  | n + 1, b => incrementN n (b.Increment).1

/-- The value returned by the `n`-th `Increment` call (`n ≥ 1`) on `b`. -/
def nthIncrementResult (n : Nat) (b : Bar) : Bool :=
  ((incrementN (n - 1) b).Increment).2

/-! ## main.go: the countdown goroutine (lines 72-87) -/

/-- The arm taken by the `select` of the countdown goroutine: `tick` is
`case <-ticker.C`, `stop` is `case <-stopCh`. -/
inductive Event where
  | tick
  | stop
deriving DecidableEq, Repr

/-- The observable actions of the countdown goroutine, in program order. -/
inductive Action where
  /-- The call `bar.Output()` on line 76, with the bar it renders. -/
  | output (b : Bar)
  /-- The call `bar.Increment()` on line 79: the bar after it and its return value. -/
  | increment (b : Bar) (finished : Bool)
  /-- The arm `case <-stopCh` on line 80 was taken. -/
  | stopObserved
  /-- The call `bar.OutputDone()` on line 85. -/
  | outputDone (b : Bar)
  /-- The call `wg.Done()` (line 81 or line 86). -/
  | wgDone
deriving DecidableEq

/-- An action that renders the bar: `Output` or `OutputDone`. -/
def Action.isRender : Action → Bool
  | .output _ => true
  | .outputDone _ => true
  | _ => false

/-- The loop of the countdown goroutine, lines 75-86, run on the sequence of `select`
outcomes delivered to it: each iteration tests the loop condition, calls `Output`,
then blocks in the `select`. The result is the trace of actions and whether the goroutine
returned (`true`) or is still blocked in its `select` because no further event was
delivered (`false`). `total` is `waitTime.Seconds()`. -/
def countdownLoop (total : ℚ) : List Event → Bar → List Action × Bool
  | [], bar =>
    if bar.current < total - 1 then ([Action.output bar], false)
    else ([Action.outputDone bar, Action.wgDone], true)
  | Event.tick :: rest, bar =>
    if bar.current < total - 1 then
      let r := bar.Increment
      let (tr, returned) := countdownLoop total rest r.1
      (Action.output bar :: Action.increment r.1 r.2 :: tr, returned)
    else ([Action.outputDone bar, Action.wgDone], true)
  | Event.stop :: _, bar =>
    if bar.current < total - 1 then
      ([Action.output bar, Action.stopObserved, Action.wgDone], true)
    else ([Action.outputDone bar, Action.wgDone], true)

/-- The countdown goroutine: `bar := New(waitTime.Seconds())`, then the loop. -/
def countdown (total : ℚ) (events : List Event) : List Action × Bool :=
  countdownLoop total events (New total)

/-! ## main.go: the cancellation signal in the wait phase (lines 67, 89-97, 129-144) -/

/-- A Go channel that is only ever closed and received from. -/
inductive ChanState where
  | isOpen
  | closed
deriving DecidableEq, Repr

/-- Go's built-in `close(c)`: closing an already closed channel is the run-time panic
"close of closed channel". -/
def goClose : ChanState → Except String ChanState
  | ChanState.isOpen => Except.ok ChanState.closed
  | ChanState.closed => Except.error "close of closed channel"

/-- Where the goroutine started by `SignalHandler` is: blocked in its `select`
(line 134) or past `signal.Stop(ch)` (line 140). -/
inductive ListenerPc where
  | atSelect
  | stopped
deriving DecidableEq, Repr

/-- Where the main flow of `RootCmd.Run` is: blocked in the `select` of line 89, in
`wg.Wait()` of line 97 after the timer arm, or in `wg.Wait()` of line 93 before
`os.Exit(0)`. -/
inductive MainPc where
  | atSelect
  | waitAfterTimer
  | waitThenExit
deriving DecidableEq, Repr

/-- The part of the process state the wait phase's cancellation signal depends on. -/
structure WaitState where
  /-- The channel returned by `SignalHandler`. -/
  stopCh : ChanState
  /-- The buffered channel `ch` (capacity 1) holds a delivered signal. -/
  sigBuffered : Bool
  /-- The registration `signal.Notify(ch, ...)` is active (until `signal.Stop(ch)`). -/
  notifying : Bool
  /-- The channel of `time.Tick(waitTime)` holds a value. -/
  timerReady : Bool
  listener : ListenerPc
  mainPc : MainPc
  /-- How many `close(stopCh)` calls completed. -/
  closes : Nat
  /-- How many times the cancellation message was printed. -/
  printed : Nat
  /-- The run-time panic that ended the process, if any. -/
  panicked : Option String
deriving DecidableEq, Repr

/-- The state when `SignalHandler` has returned `stopCh` and the main flow has reached
the `select` of line 89. -/
def SignalHandler.initial : WaitState :=
  { stopCh := ChanState.isOpen
    sigBuffered := false
    notifying := true
    timerReady := false
    listener := ListenerPc.atSelect
    mainPc := MainPc.atSelect
    closes := 0
    printed := 0
    panicked := none }

/-- The statement `close(stopCh)` executed in state `s`. -/
def closeStopCh (s : WaitState) : WaitState :=
  match goClose s.stopCh with
  | Except.ok c => { s with stopCh := c, closes := s.closes + 1 }
  | Except.error msg => { s with panicked := some msg }

/-- One scheduling decision of the wait phase. -/
inductive Move where
  /-- The OS delivers SIGINT or SIGTERM to the process. -/
  | osInterrupt
  /-- The timer of `time.Tick(waitTime)` expires. -/
  | timerExpires
  /-- The listener's `select` takes `case <-ch` (lines 135-137). -/
  | listenerRecvSig
  /-- The listener's `select` takes `case <-stopCh` (line 138). -/
  | listenerRecvStop
  /-- The main `select` takes `case <-time.Tick(waitTime)` (lines 90-91). -/
  | mainRecvTimer
  /-- The main `select` takes `case <-stopCh` (lines 92-94). -/
  | mainRecvStop
deriving DecidableEq, Repr

/-- The goroutine of `SignalHandler` (lines 133-141) taking one arm of its `select`,
followed by `signal.Stop(ch)`; `none` when that arm is not ready. -/
def SignalHandler.goroutine (takeSig : Bool) (s : WaitState) : Option WaitState :=
  if s.listener = ListenerPc.atSelect then
    if takeSig then
      if s.sigBuffered then
        let s1 := { s with sigBuffered := false, printed := s.printed + 1 }
        let s2 := closeStopCh s1
        if s2.panicked.isSome then some s2
        else some { s2 with notifying := false, listener := ListenerPc.stopped }
      else none
    else
      if s.stopCh = ChanState.closed then
        some { s with notifying := false, listener := ListenerPc.stopped }
      else none
  else none

/-- The `select` of `RootCmd.Run`, lines 89-95, taking one arm; `none` when that arm is
not ready. -/
def RootCmd.waitSelect (takeTimer : Bool) (s : WaitState) : Option WaitState :=
  if s.mainPc = MainPc.atSelect then
    if takeTimer then
      if s.timerReady then
        let s1 := closeStopCh { s with timerReady := false }
        if s1.panicked.isSome then some s1
        else some { s1 with mainPc := MainPc.waitAfterTimer }
      else none
    else
      if s.stopCh = ChanState.closed then some { s with mainPc := MainPc.waitThenExit }
      else none
  else none

/-- One step of the wait phase; `none` when the move is not enabled. A panicked process
takes no further step. A signal is put into `ch` only while the registration is active
and the buffer is free (`signal.Notify` never blocks). -/
def step (m : Move) (s : WaitState) : Option WaitState :=
  if s.panicked.isSome then none
  else
    match m with
    | Move.osInterrupt =>
      if s.notifying then some { s with sigBuffered := true } else none
    | Move.timerExpires => some { s with timerReady := true }
    | Move.listenerRecvSig => SignalHandler.goroutine true s
    | Move.listenerRecvStop => SignalHandler.goroutine false s
    | Move.mainRecvTimer => RootCmd.waitSelect true s
    | Move.mainRecvStop => RootCmd.waitSelect false s

/-- An execution: the moves taken in order; `none` when some move was not enabled. -/
def run : List Move → WaitState → Option WaitState
  | [], s => some s
  | m :: ms, s =>
    match step m s with
    | some s1 => run ms s1
    | none => none

/-! ## main.go: `GetWaitTime` (lines 204-220) -/

/-- The largest `time.Duration` (an `int64` count of nanoseconds). -/
def maxDuration : Int := 2 ^ 63 - 1

/-- The smallest `time.Duration`. -/
def minDuration : Int := -(2 ^ 63)

/-- The call `time.Until(t)` when the clock reads `now`, instants in nanoseconds:
`t.Sub(now)`, which saturates at the bounds of `time.Duration`. -/
def timeUntil (now t : Int) : Int :=
  if t - now > maxDuration then maxDuration
  else if t - now < minDuration then minDuration
  else t - now

/-- The duration `time.Hour * 24` in nanoseconds. -/
def hours24 : Int := 3600 * 1000000000 * 24

/-- The function `GetWaitTime(reqTime)`. `parsed` is the result of `time.Parse(longForm, strTime)`
(the requested time-of-day on today's date, as an instant in nanoseconds, or the parse
error); `nowAtCheck` and `nowAtReturn` are the clock readings taken by the two
`time.Until` calls of lines 213 and 219. -/
def GetWaitTime (parsed : Except String Int) (nowAtCheck nowAtReturn : Int) :
    Except String Int :=
  match parsed with
  | Except.error err => Except.error ("failed to parse time: " ++ err)
  | Except.ok parsedTime =>
    let parsedTime :=
      if timeUntil nowAtCheck parsedTime < 0 then parsedTime + hours24 else parsedTime
    Except.ok (timeUntil nowAtReturn parsedTime)

/-! ## main.go: `DecodeSoundFile` (lines 146-176) -/

/-- Go's `os.IsPathSeparator` on Unix. -/
def isPathSeparator (c : Char) : Bool := c = '/'

/-- The loop of Go's `filepath.Ext`, on the characters of the path from the last one
backwards; `tail` is what follows the character under inspection. -/
def extScan : List Char → List Char → List Char
  | [], _ => []
  | c :: before, tail =>
    if isPathSeparator c then []
    else if c = '.' then c :: tail
    else extScan before (c :: tail)

/-- Go's `filepath.Ext(path)`: the part of the last path element from its last dot on,
empty when there is no dot. -/
def filepathExt (path : String) : String :=
  String.mk (extScan path.data.reverse [])

/-- Go's `filepath.Base(path)` on Unix: the last element of the path, trailing
separators removed; "." for the empty path and "/" for a path of separators only. -/
def filepathBase (path : String) : String :=
  if path.data = [] then "."
  else
    let stripped := path.data.reverse.dropWhile isPathSeparator
    let last := (stripped.takeWhile (fun c => !isPathSeparator c)).reverse
    if last = [] then "/" else String.mk last

/-- The three decoders `mp3.Decode`, `flac.Decode`, `wav.Decode`. -/
inductive Decoder where
  | mp3
  | flac
  | wav
deriving DecidableEq, Repr

/-- The file extension the `switch` of `DecodeSoundFile` pairs with each decoder. -/
def Decoder.extension : Decoder → String
  | Decoder.mp3 => ".mp3"
  | Decoder.flac => ".flac"
  | Decoder.wav => ".wav"

/-- The external calls of `DecodeSoundFile`: `os.Open` and the decoders of the audio
library, each returning its value or the text of its error. -/
structure DecodeEnv (File Stream Format : Type) where
  osOpen : String → Except String File
  decode : Decoder → File → Except String (Stream × Format)

/-- What a call of `DecodeSoundFile` does: the returned `(sound, err)` pair (a stream or
the error text), the decoders it invoked in order, and the format handed to
`speaker.Init` when that call is reached. -/
structure DecodeOutcome (Stream Format : Type) where
  result : Except String Stream
  invoked : List Decoder
  speakerInit : Option Format

/-- The tail of `DecodeSoundFile` after the `switch`, lines 170-175. -/
def finishDecode {Stream Format : Type} (invoked : List Decoder)
    (r : Except String (Stream × Format)) : DecodeOutcome Stream Format :=
  match r with
  | Except.error err =>
    { result := Except.error ("failed to decode sound file: " ++ err)
      invoked := invoked
      speakerInit := none }
  | Except.ok (s, format) =>
    { result := Except.ok s
      invoked := invoked
      speakerInit := some format }

/-- The function `DecodeSoundFile(path)`. The `switch` on `filepath.Ext(path)` tries
its cases in source order. -/
def DecodeSoundFile {File Stream Format : Type} (env : DecodeEnv File Stream Format)
    (path : String) : DecodeOutcome Stream Format :=
  match env.osOpen path with
  | Except.error err =>
    { result := Except.error ("failed to open sound file: " ++ err)
      invoked := []
      speakerInit := none }
  | Except.ok f =>
    if filepathExt path = ".mp3" then
      finishDecode [Decoder.mp3] (env.decode Decoder.mp3 f)
    else if filepathExt path = ".flac" then
      finishDecode [Decoder.flac] (env.decode Decoder.flac f)
    else if filepathExt path = ".wav" then
      finishDecode [Decoder.wav] (env.decode Decoder.wav f)
    else
      finishDecode []
        (Except.error ("only [mp3, flac, wav] supported: unable to use file \x27"
          ++ filepathBase path ++ "\x27"))

/-- An environment in which every file opens and every decoder succeeds. -/
def permissiveEnv : DecodeEnv Unit Unit Unit :=
  { osOpen := fun _ => Except.ok ()
    decode := fun _ _ => Except.ok ((), ()) }

/-! ## main.go: `ResolveFile` (lines 178-202) -/

/-- The result of a Go call that may also end in a run-time panic. -/
inductive Outcome (α : Type) where
  | ok (value : α)
  | error (msg : String)
  | panic (msg : String)
deriving DecidableEq, Repr

/-- The external calls of `ResolveFile`: `user.Current()` (the home directory or the
error text), `filepath.Join`, `filepath.Abs`, `filepath.Dir`, `filepath.Base`, and
whether `os.Stat(file)` fails with a does-not-exist error. -/
structure FsEnv where
  userHome : Except String String
  join : String → String → String
  abs : String → Except String String
  dir : String → String
  base : String → String
  statNotExist : String → Bool

/-- The tail of `ResolveFile` from line 190 on; `file` is the possibly expanded path. -/
def resolveTail (env : FsEnv) (path file : String) : Outcome String :=
  match env.abs (env.dir file) with
  | Except.error err =>
    Outcome.error
      ("failed to resovle absolute path \x27" ++ path ++ "\x27: " ++ err)
  | Except.ok absDir =>
    let file := env.join absDir (env.base path)
    if env.statNotExist file then Outcome.error ("file does not exist: " ++ path)
    else Outcome.ok file

/-- The function `ResolveFile(path)`. The index expression `path[0]` of line 181 panics when the
string is empty. -/
def ResolveFile (env : FsEnv) (path : String) : Outcome String :=
  match path.data with
  | [] => Outcome.panic "index out of range [0] with length 0"
  | c :: rest =>
    if c = '~' then
      match env.userHome with
      | Except.error err => Outcome.error err
      | Except.ok home => resolveTail env path (env.join home (String.mk rest))
    else resolveTail env path path

/-! ## The specification's wording, for comparison with the code -/

/-- The fill count as the specification words it: `floor(width * current / total)`. -/
def Bar.specPlace (b : Bar) : Int :=
  ⌊(b.width : ℚ) * b.current / b.total⌋

/-- The rendering as the specification words it: the left border, `place` fill glyphs,
one head glyph, `width - place` empty glyphs, the right border, with the
specification's `place`. -/
def Bar.specString (b : Bar) : String :=
  b.left ++ copies b.fill b.specPlace.toNat ++ b.head
    ++ copies b.empty (b.width - b.specPlace).toNat ++ b.right

/-! ## Concrete inputs -/

/-- The bar of `New(10)` after three `Increment` calls: `current = 3`. -/
def barThreeOfTen : Bar := incrementN 3 (New 10)

/-! ## Helper lemmas for the bar -/

theorem string_append_empty (s : String) : s ++ "" = s := by
  apply String.ext
  simp

theorem string_append_assoc (a b c : String) : a ++ b ++ c = a ++ (b ++ c) := by
  apply String.ext
  simp [List.append_assoc]

theorem copies_length (g : String) (k : Nat) : (copies g k).length = k * g.length := by
  induction k with
  | zero => simp [copies]
  | succ k ih => simp [copies, String.length_append, ih]; ring

theorem appendLoop_eq (glyph : String) (bound : Int) :
    ∀ (fuel : Nat) (n : Int) (out : String), (bound - n).toNat ≤ fuel →
      appendLoop glyph bound fuel n out = out ++ copies glyph (bound - n).toNat := by
  intro fuel
  induction fuel with
  | zero =>
    intro n out h
    have h0 : (bound - n).toNat = 0 := Nat.le_zero.mp h
    simp [appendLoop, h0, copies, string_append_empty]
  | succ fuel ih =>
    intro n out h
    unfold appendLoop
    by_cases hlt : n < bound
    · rw [if_pos hlt]
      have hstep : (bound - n).toNat = (bound - (n + 1)).toNat + 1 := by omega
      rw [ih (n + 1) (out ++ glyph) (by omega), hstep, copies, string_append_assoc]
    · rw [if_neg hlt]
      have h0 : (bound - n).toNat = 0 := by omega
      simp [h0, copies, string_append_empty]

theorem appendTimes_eq (glyph : String) (bound : Int) (out : String) :
    appendTimes glyph bound out = out ++ copies glyph bound.toNat := by
  unfold appendTimes
  rw [appendLoop_eq glyph bound bound.toNat 0 out (by simp)]
  simp

theorem GetString_eq (b : Bar) :
    b.GetString = b.left ++ copies b.fill b.place.toNat ++ b.head
      ++ copies b.empty (b.width - b.place).toNat ++ b.right := by
  simp only [Bar.GetString, appendTimes_eq]

theorem goInt_of_nonneg (x : ℚ) (hx : 0 ≤ x) : goInt x = ⌊x⌋ := by
  unfold goInt
  rw [Rat.floor_def]
  exact Int.tdiv_eq_ediv (Rat.num_nonneg.mpr hx) (by positivity)

theorem goInt_of_nonpos (x : ℚ) (hx : x ≤ 0) : goInt x = -⌊-x⌋ := by
  unfold goInt
  rw [Rat.floor_def]
  have hnum : 0 ≤ -x.num := by
    have := Rat.num_nonpos.mpr hx
    omega
  have h1 : Int.tdiv x.num (x.den : Int) = -Int.tdiv (-x.num) (x.den : Int) := by
    rw [Int.neg_tdiv, neg_neg]
  rw [h1, Int.tdiv_eq_ediv hnum (by positivity)]
  simp

theorem place_eq (b : Bar) : b.place = goInt ((b.width : ℚ) * b.current / b.total) := by
  simp only [Bar.place]
  congr 1
  ring

theorem place_eq_specPlace (b : Bar) (ht : 0 < b.total) (hc : 0 ≤ b.current)
    (hw : 0 ≤ b.width) : b.place = b.specPlace := by
  have hwq : (0 : ℚ) ≤ (b.width : ℚ) := by exact_mod_cast hw
  rw [place_eq, goInt_of_nonneg _ (div_nonneg (mul_nonneg hwq hc) ht.le)]
  rfl

theorem place_nonneg (b : Bar) (ht : 0 < b.total) (hc : 0 ≤ b.current)
    (hw : 0 ≤ b.width) : 0 ≤ b.place := by
  have hwq : (0 : ℚ) ≤ (b.width : ℚ) := by exact_mod_cast hw
  rw [place_eq_specPlace b ht hc hw]
  exact Int.floor_nonneg.mpr (div_nonneg (mul_nonneg hwq hc) ht.le)

theorem place_le_width (b : Bar) (ht : 0 < b.total) (hc : 0 ≤ b.current)
    (hct : b.current ≤ b.total) (hw : 0 ≤ b.width) : b.place ≤ b.width := by
  have hwq : (0 : ℚ) ≤ (b.width : ℚ) := by exact_mod_cast hw
  rw [place_eq_specPlace b ht hc hw]
  have hle : (b.width : ℚ) * b.current / b.total ≤ (b.width : ℚ) := by
    rw [div_le_iff₀ ht]
    exact mul_le_mul_of_nonneg_left hct hwq
  have h := Int.floor_mono hle
  simpa [Bar.specPlace] using h

theorem place_nonpos (b : Bar) (ht : 0 < b.total) (hc : 0 ≤ b.current)
    (hw : b.width ≤ 0) : b.place ≤ 0 := by
  have hwq : (b.width : ℚ) ≤ 0 := by exact_mod_cast hw
  have hx : (b.width : ℚ) * b.current / b.total ≤ 0 :=
    div_nonpos_of_nonpos_of_nonneg (mul_nonpos_of_nonpos_of_nonneg hwq hc) ht.le
  rw [place_eq, goInt_of_nonpos _ hx]
  have : 0 ≤ ⌊-((b.width : ℚ) * b.current / b.total)⌋ := Int.floor_nonneg.mpr (by linarith)
  omega

theorem width_le_place (b : Bar) (ht : 0 < b.total) (hc : 0 ≤ b.current)
    (hct : b.current ≤ b.total) (hw : b.width ≤ 0) : b.width ≤ b.place := by
  have hwq : (b.width : ℚ) ≤ 0 := by exact_mod_cast hw
  have hx : (b.width : ℚ) * b.current / b.total ≤ 0 :=
    div_nonpos_of_nonpos_of_nonneg (mul_nonpos_of_nonpos_of_nonneg hwq hc) ht.le
  rw [place_eq, goInt_of_nonpos _ hx]
  have hle : -((b.width : ℚ) * b.current / b.total) ≤ ((-b.width : Int) : ℚ) := by
    rw [neg_le, Int.cast_neg, neg_neg, le_div_iff₀ ht]
    exact mul_le_mul_of_nonpos_left hct hwq
  have h := Int.floor_mono hle
  rw [Int.floor_intCast] at h
  omega

theorem glyph_count (b : Bar) (ht : 0 < b.total) (hc : 0 ≤ b.current)
    (hct : b.current ≤ b.total) :
    b.place.toNat + (b.width - b.place).toNat = b.width.toNat := by
  rcases le_total 0 b.width with hw | hw
  · have h1 := place_nonneg b ht hc hw
    have h2 := place_le_width b ht hc hct hw
    omega
  · have h1 := place_nonpos b ht hc hw
    have h2 := width_le_place b ht hc hct hw
    omega

theorem place_mono_of_width_nonneg (b : Bar) (c1 c2 : ℚ) (ht : 0 < b.total)
    (h1 : 0 ≤ c1) (h12 : c1 ≤ c2) (hw : 0 ≤ b.width) :
    ({ b with current := c1 } : Bar).place ≤ ({ b with current := c2 } : Bar).place := by
  have hwq : (0 : ℚ) ≤ (b.width : ℚ) := by exact_mod_cast hw
  rw [place_eq_specPlace ({ b with current := c1 } : Bar) ht h1 hw,
    place_eq_specPlace ({ b with current := c2 } : Bar) ht (le_trans h1 h12) hw]
  apply Int.floor_mono
  show (b.width : ℚ) * c1 / b.total ≤ (b.width : ℚ) * c2 / b.total
  exact div_le_div_of_nonneg_right (mul_le_mul_of_nonneg_left h12 hwq) ht.le

theorem fill_count_mono (b : Bar) (c1 c2 : ℚ) (ht : 0 < b.total)
    (h1 : 0 ≤ c1) (h12 : c1 ≤ c2) :
    ({ b with current := c1 } : Bar).place.toNat
      ≤ ({ b with current := c2 } : Bar).place.toNat := by
  rcases le_total 0 b.width with hw | hw
  · have := place_mono_of_width_nonneg b c1 c2 ht h1 h12 hw
    omega
  · have h := place_nonpos ({ b with current := c1 } : Bar) ht h1 hw
    have h0 : ({ b with current := c1 } : Bar).place.toNat = 0 := by omega
    rw [h0]
    exact Nat.zero_le _

theorem incrementN_eq (n : Nat) (b : Bar) :
    incrementN n b = { b with current := b.current + n } := by
  induction n generalizing b with
  | zero => simp [incrementN]
  | succ n ih =>
    have hb : (b.Increment).1 = { b with current := b.current + 1 } := by
      simp only [Bar.Increment]
      split <;> rfl
    rw [incrementN, ih, hb]
    simp only [Nat.cast_add, Nat.cast_one]
    congr 1
    ring

theorem Increment_fst (b : Bar) : (b.Increment).1 = { b with current := b.current + 1 } := by
  simp only [Bar.Increment]
  split <;> rfl

theorem Increment_snd (b : Bar) : (b.Increment).2 = true ↔ b.current + 1 ≥ b.total := by
  simp only [Bar.Increment]
  split <;> simp_all

/-! ## Helper lemmas for the countdown goroutine -/


theorem countdownLoop_after_stop (total : ℚ) (events : List Event) :
    ∀ (bar : Bar) (pre post : List Action),
      (countdownLoop total events bar).1 = pre ++ Action.stopObserved :: post →
        post = [Action.wgDone] := by
  induction events with
  | nil =>
    intro bar pre post h
    simp only [countdownLoop] at h
    split at h
    · rcases pre with _ | ⟨a, pre1⟩
      · simp at h
      · simp at h
    · rcases pre with _ | ⟨a, _ | ⟨a2, pre2⟩⟩ <;> simp at h
  | cons e rest ih =>
    intro bar pre post h
    cases e with
    | tick =>
      simp only [countdownLoop] at h
      split at h
      · rcases pre with _ | ⟨a, _ | ⟨a2, pre2⟩⟩
        · simp at h
        · simp at h
        · simp only [List.cons_append, List.cons.injEq] at h
          exact ih _ pre2 post h.2.2
      · rcases pre with _ | ⟨a, _ | ⟨a2, pre2⟩⟩ <;> simp at h
    | stop =>
      simp only [countdownLoop] at h
      split at h
      · rcases pre with _ | ⟨a, _ | ⟨a2, pre2⟩⟩
        · simp at h
        · simp only [List.cons_append, List.nil_append, List.cons.injEq] at h
          exact h.2.2.symm
        · rcases pre2 with _ | ⟨a3, pre3⟩ <;> simp at h
      · rcases pre with _ | ⟨a, _ | ⟨a2, pre2⟩⟩ <;> simp at h

theorem countdownLoop_done_of_returned (total : ℚ) (events : List Event) :
    ∀ (bar : Bar), (countdownLoop total events bar).2 = true →
      (countdownLoop total events bar).1.count Action.wgDone = 1
        ∧ (countdownLoop total events bar).1.getLast? = some Action.wgDone := by
  induction events with
  | nil =>
    intro bar h
    simp only [countdownLoop] at h ⊢
    split
    · rename_i hc
      simp [hc] at h
    · simp [List.count_cons]
  | cons e rest ih =>
    intro bar h
    cases e with
    | tick =>
      simp only [countdownLoop] at h ⊢
      split
      · rename_i hc
        simp only [hc, if_true] at h
        have := ih _ h
        constructor
        · simpa [List.count_cons] using this.1
        · have hlast := this.2
          rcases hx : (countdownLoop total rest bar.Increment.1).1 with _ | ⟨x, xs⟩
          · rw [hx] at hlast
            simp at hlast
          · rw [hx] at hlast
            rw [List.getLast?_cons_cons, List.getLast?_cons_cons]
            exact hlast
      · simp [List.count_cons]
    | stop =>
      simp only [countdownLoop]
      split <;> simp [List.count_cons]

theorem countdownLoop_no_done_of_blocked (total : ℚ) (events : List Event) :
    ∀ (bar : Bar), (countdownLoop total events bar).2 = false →
      (countdownLoop total events bar).1.count Action.wgDone = 0
        ∧ Action.stopObserved ∉ (countdownLoop total events bar).1 := by
  induction events with
  | nil =>
    intro bar h
    simp only [countdownLoop] at h ⊢
    split
    · simp [List.count_cons]
    · rename_i hc
      simp [hc] at h
  | cons e rest ih =>
    intro bar h
    cases e with
    | tick =>
      simp only [countdownLoop] at h ⊢
      split
      · rename_i hc
        simp only [hc, if_true] at h
        have := ih _ h
        constructor
        · simpa [List.count_cons] using this.1
        · simpa using this.2
      · rename_i hc
        simp [hc] at h
    | stop =>
      simp only [countdownLoop] at h
      split at h <;> simp at h

theorem countdownLoop_returned_iff (total : ℚ) (events : List Event) :
    ∀ (bar : Bar), (countdownLoop total events bar).2 = true ↔
      (Event.stop ∈ events ∨ total - 1 ≤ bar.current + (events.length : ℚ)) := by
  induction events with
  | nil =>
    intro bar
    simp only [countdownLoop]
    split
    · rename_i hc
      simp
      linarith
    · rename_i hc
      simp
      linarith
  | cons e rest ih =>
    intro bar
    cases e with
    | tick =>
      simp only [countdownLoop]
      split
      · rename_i hc
        simp only [ih, Increment_fst, List.mem_cons, List.length_cons, Nat.cast_add,
          Nat.cast_one]
        constructor
        · rintro (h | h)
          · exact Or.inl (Or.inr h)
          · exact Or.inr (by linarith)
        · rintro (h | h)
          · rcases h with h | h
            · cases h
            · exact Or.inl h
          · exact Or.inr (by linarith)
      · rename_i hc
        simp only [List.mem_cons, List.length_cons, Nat.cast_add, Nat.cast_one, true_iff]
        right
        have : (0 : ℚ) ≤ (rest.length : ℚ) := Nat.cast_nonneg _
        linarith
    | stop =>
      simp only [countdownLoop]
      split <;> simp

theorem countdownLoop_output_inv (total : ℚ) (events : List Event) :
    ∀ (bar : Bar), 0 ≤ bar.current →
      ∀ b, Action.output b ∈ (countdownLoop total events bar).1 →
        b.total = bar.total ∧ b.width = bar.width ∧ 0 ≤ b.current
          ∧ b.current < total - 1 := by
  induction events with
  | nil =>
    intro bar h0 b hb
    simp only [countdownLoop] at hb
    split at hb
    · rename_i hc
      simp at hb
      subst hb
      exact ⟨rfl, rfl, h0, hc⟩
    · simp at hb
  | cons e rest ih =>
    intro bar h0 b hb
    cases e with
    | tick =>
      simp only [countdownLoop] at hb
      split at hb
      · rename_i hc
        simp only [List.mem_cons, Action.output.injEq, false_or] at hb
        rcases hb with hb | hb
        · subst hb
          exact ⟨rfl, rfl, h0, hc⟩
        · simp only [reduceCtorEq, false_or] at hb
          have h1 : 0 ≤ (bar.Increment).1.current := by
            rw [Increment_fst]
            show 0 ≤ bar.current + 1
            linarith
          have := ih _ h1 b hb
          rw [Increment_fst] at this
          exact this
      · simp at hb
    | stop =>
      simp only [countdownLoop] at hb
      split at hb
      · rename_i hc
        simp at hb
        subst hb
        exact ⟨rfl, rfl, h0, hc⟩
      · simp at hb

theorem countdownLoop_increment_inv (total : ℚ) (events : List Event) :
    ∀ (bar : Bar), bar.total = total →
      ∀ b fin, Action.increment b fin ∈ (countdownLoop total events bar).1 →
        fin = false ∧ b.current < total := by
  induction events with
  | nil =>
    intro bar ht b fin hb
    simp only [countdownLoop] at hb
    split at hb <;> simp at hb
  | cons e rest ih =>
    intro bar ht b fin hb
    cases e with
    | tick =>
      simp only [countdownLoop] at hb
      split at hb
      · rename_i hc
        simp only [List.mem_cons, reduceCtorEq, false_or, Action.increment.injEq] at hb
        rcases hb with hb | hb
        · obtain ⟨h1, h2⟩ := hb
          subst h1 h2
          have hlt : ¬ (bar.current + 1 ≥ bar.total) := by
            rw [ht]
            intro hge
            linarith
          constructor
          · have := Increment_snd bar
            cases hfin : (bar.Increment).2
            · rfl
            · exact absurd (this.mp hfin) hlt
          · rw [Increment_fst]
            show bar.current + 1 < total
            linarith
        · have ht1 : (bar.Increment).1.total = total := by
            rw [Increment_fst]
            exact ht
          exact ih _ ht1 b fin hb
      · simp at hb
    | stop =>
      simp only [countdownLoop] at hb
      split at hb <;> simp at hb

theorem place_lt_width (b : Bar) (ht : 0 < b.total) (hc : 0 ≤ b.current)
    (hct : b.current < b.total) (hw : 0 < b.width) : b.place < b.width := by
  have hwq : (0 : ℚ) < (b.width : ℚ) := by exact_mod_cast hw
  rw [place_eq_specPlace b ht hc hw.le]
  have hlt : (b.width : ℚ) * b.current / b.total < (b.width : ℚ) := by
    rw [div_lt_iff₀ ht]
    exact mul_lt_mul_of_pos_left hct hwq
  exact Int.floor_lt.mpr hlt

/-! ## Claims about the progress bar -/

theorem incrementN_New (n : Nat) (total : ℚ) :
    incrementN n (New total) = { New total with current := (n : ℚ) } := by
  rw [incrementN_eq]
  simp [New]

theorem incrementN_New_width (n : Nat) (total : ℚ) :
    (incrementN n (New total)).width = 70 ∧ 0 ≤ (incrementN n (New total)).current := by
  rw [incrementN_New]
  exact ⟨rfl, Nat.cast_nonneg n⟩

theorem barThreeOfTen_eq : barThreeOfTen = { New 10 with current := 3 } := by
  rw [barThreeOfTen, incrementN_New]
  simp

/-- C1. For every bar with `total > 0` and `current ≥ 0`, arithmetic taken exactly, whose
width is a column count (not negative, as for every bar `New` builds: it sets 70 and no
code changes it), `place` is `floor(width * current / total)` and `GetString` is exactly
the left border, `place` fill glyphs, one head glyph, `width - place` empty glyphs and
the right border. -/
theorem GetString_layout (b : Bar) (ht : 0 < b.total) (hc : 0 ≤ b.current)
    (hw : 0 ≤ b.width) :
    b.place = ⌊(b.width : ℚ) * b.current / b.total⌋
      ∧ b.GetString
          = b.left ++ copies b.fill ⌊(b.width : ℚ) * b.current / b.total⌋.toNat ++ b.head
              ++ copies b.empty (b.width - ⌊(b.width : ℚ) * b.current / b.total⌋).toNat
              ++ b.right
      ∧ b.GetString = b.specString := by
  have hp : b.place = ⌊(b.width : ℚ) * b.current / b.total⌋ := place_eq_specPlace b ht hc hw
  refine ⟨hp, ?_, ?_⟩
  · rw [GetString_eq, hp]
  · rw [GetString_eq, Bar.specString, Bar.specPlace, hp]

/-- C1, the instance of the claim: with the defaults of `New`, `total = 10` and
`current = 3` (three `Increment` calls), the bar is "[", 21 "=", ">", 49 "-", "]". -/
theorem GetString_layout_witness :
    0 < barThreeOfTen.total ∧ 0 ≤ barThreeOfTen.current ∧ 0 ≤ barThreeOfTen.width
      ∧ barThreeOfTen.place = 21
      ∧ barThreeOfTen.GetString
          = "[" ++ copies "=" 21 ++ ">" ++ copies "-" 49 ++ "]"
      ∧ barThreeOfTen.GetString
          = "[=====================>-------------------------------------------------]" := by
  have ht : 0 < barThreeOfTen.total := by rw [barThreeOfTen_eq]; norm_num [New]
  have hc : 0 ≤ barThreeOfTen.current := by rw [barThreeOfTen_eq]; norm_num [New]
  have hw : 0 ≤ barThreeOfTen.width := by rw [barThreeOfTen_eq]; decide
  have h := GetString_layout barThreeOfTen ht hc hw
  have hfloor : ⌊(barThreeOfTen.width : ℚ) * barThreeOfTen.current / barThreeOfTen.total⌋
      = 21 := by
    rw [barThreeOfTen_eq]
    norm_num [New]
  have hstr : barThreeOfTen.GetString
      = "[" ++ copies "=" 21 ++ ">" ++ copies "-" 49 ++ "]" := by
    rw [h.2.1, hfloor, barThreeOfTen_eq]
    rfl
  refine ⟨ht, hc, hw, h.1.trans hfloor, hstr, ?_⟩
  rw [hstr]
  decide

/-- C5. For every bar with `total > 0` and `0 ≤ current < total` whose width is a column
count (not negative, as for every bar `New` builds), the string of `GetString` is the
left border, fill glyphs, one head glyph, empty glyphs and the right border, the fill and
empty glyphs being exactly `width` together; with one-character glyphs its length is
exactly `width + 3`, whatever `current` and `total` are. -/
theorem GetString_length (b : Bar) (ht : 0 < b.total) (hc : 0 ≤ b.current)
    (hct : b.current < b.total) (hw : 0 ≤ b.width) :
    b.GetString = b.left ++ copies b.fill b.place.toNat ++ b.head
        ++ copies b.empty (b.width - b.place).toNat ++ b.right
      ∧ ((b.place.toNat + (b.width - b.place).toNat : Nat) : Int) = b.width
      ∧ (b.left.length = 1 → b.fill.length = 1 → b.head.length = 1 → b.empty.length = 1
          → b.right.length = 1 → (b.GetString.length : Int) = b.width + 3) := by
  have hcount := glyph_count b ht hc hct.le
  refine ⟨GetString_eq b, ?_, ?_⟩
  · rw [hcount]
    exact Int.toNat_of_nonneg hw
  · intro hl hf hh he hr
    have hlen : b.GetString.length = b.width.toNat + 3 := by
      rw [GetString_eq]
      simp only [String.length_append, copies_length, hl, hf, hh, he, hr]
      omega
    rw [hlen]
    push_cast
    rw [Int.toNat_of_nonneg hw]

/-- C5, witness: the bar of `New(10)` after three increments has 70 fill or empty glyphs
and length 73. -/
theorem GetString_length_witness :
    0 < barThreeOfTen.total ∧ 0 ≤ barThreeOfTen.current
      ∧ barThreeOfTen.current < barThreeOfTen.total ∧ 0 ≤ barThreeOfTen.width
      ∧ ((barThreeOfTen.place.toNat
            + (barThreeOfTen.width - barThreeOfTen.place).toNat : Nat) : Int) = 70
      ∧ (barThreeOfTen.GetString.length : Int) = 73 := by
  have ht : 0 < barThreeOfTen.total := by rw [barThreeOfTen_eq]; norm_num [New]
  have hc : 0 ≤ barThreeOfTen.current := by rw [barThreeOfTen_eq]; norm_num [New]
  have hct : barThreeOfTen.current < barThreeOfTen.total := by
    rw [barThreeOfTen_eq]; norm_num [New]
  have hw : 0 ≤ barThreeOfTen.width := by rw [barThreeOfTen_eq]; decide
  have hwidth : barThreeOfTen.width = 70 := by rw [barThreeOfTen_eq]; rfl
  have h := GetString_length barThreeOfTen ht hc hct hw
  have h3 := h.2.2 (by rw [barThreeOfTen_eq]; decide) (by rw [barThreeOfTen_eq]; decide)
    (by rw [barThreeOfTen_eq]; decide) (by rw [barThreeOfTen_eq]; decide)
    (by rw [barThreeOfTen_eq]; decide)
  refine ⟨ht, hc, hct, hw, ?_, ?_⟩
  · rw [h.2.1, hwidth]
  · rw [h3, hwidth]
    rfl

/-- C6. For a fixed `total > 0` and a fixed width that is a column count (not negative,
as for every bar `New` builds), the fill count `place` of `GetString` is non-decreasing
in `current`: `place(c1) ≤ place(c2)` for `0 ≤ c1 ≤ c2`. Hence the number of fill glyphs
in the rendered bar does not decrease from `c1` to `c2`, nor across an `Increment`
call. -/
theorem place_monotone (b : Bar) (c1 c2 : ℚ) (ht : 0 < b.total) (hw : 0 ≤ b.width)
    (h1 : 0 ≤ c1) (h12 : c1 ≤ c2) :
    ({ b with current := c1 } : Bar).place ≤ ({ b with current := c2 } : Bar).place
      ∧ ({ b with current := c1 } : Bar).place.toNat
          ≤ ({ b with current := c2 } : Bar).place.toNat
      ∧ ({ b with current := c1 } : Bar).place
          ≤ (({ b with current := c1 } : Bar).Increment).1.place
      ∧ ({ b with current := c1 } : Bar).place.toNat
          ≤ (({ b with current := c1 } : Bar).Increment).1.place.toNat := by
  have hinc : c1 ≤ c1 + 1 := by linarith
  refine ⟨place_mono_of_width_nonneg b c1 c2 ht h1 h12 hw, fill_count_mono b c1 c2 ht h1 h12,
    ?_, ?_⟩
  · rw [Increment_fst]
    exact place_mono_of_width_nonneg b c1 (c1 + 1) ht h1 hinc hw
  · rw [Increment_fst]
    exact fill_count_mono b c1 (c1 + 1) ht h1 hinc

/-- C6, witness: for the bar of `New(10)`, `place` at `current = 3` is at most `place`
at `current = 4`, and the fill glyphs do not decrease across `Increment`. -/
theorem place_monotone_witness :
    0 < (New 10).total ∧ 0 ≤ (New 10).width ∧ (0 : ℚ) ≤ 3 ∧ (3 : ℚ) ≤ 4
      ∧ ({ New 10 with current := 3 } : Bar).place ≤ ({ New 10 with current := 4 } : Bar).place
      ∧ ({ New 10 with current := 3 } : Bar).place.toNat
          ≤ (({ New 10 with current := 3 } : Bar).Increment).1.place.toNat := by
  have ht : 0 < (New 10).total := by norm_num [New]
  have h := place_monotone (New 10) 3 4 ht (by decide) (by norm_num) (by norm_num)
  exact ⟨ht, by decide, by norm_num, by norm_num, h.1, h.2.2.2⟩

/-- C7. For every bar, `Increment` sets `current` to its old value plus 1, leaves
`total`, `width` and the glyphs unchanged, and returns `true` exactly when the new
`current` is at least `total`. Starting from `New(total)`, the call number `n + 1`
returns `true` exactly when `n + 1 ≥ total`. -/
theorem Increment_spec (b : Bar) (total : ℚ) (n : Nat) :
    (b.Increment).1 = { b with current := b.current + 1 }
      ∧ (b.Increment).1.current = b.current + 1
      ∧ (b.Increment).1.total = b.total ∧ (b.Increment).1.width = b.width
      ∧ (b.Increment).1.head = b.head ∧ (b.Increment).1.empty = b.empty
      ∧ (b.Increment).1.fill = b.fill ∧ (b.Increment).1.left = b.left
      ∧ (b.Increment).1.right = b.right
      ∧ ((b.Increment).2 = true ↔ (b.Increment).1.current ≥ (b.Increment).1.total)
      ∧ (nthIncrementResult (n + 1) (New total) = true ↔ ((n + 1 : Nat) : ℚ) ≥ total) := by
  have h1 := Increment_fst b
  refine ⟨h1, ?_, ?_, ?_, ?_, ?_, ?_, ?_, ?_, ?_, ?_⟩
  · rw [h1]
  · rw [h1]
  · rw [h1]
  · rw [h1]
  · rw [h1]
  · rw [h1]
  · rw [h1]
  · rw [h1]
  · rw [h1]
    exact Increment_snd b
  · unfold nthIncrementResult
    rw [Increment_snd, incrementN_eq]
    simp [New]

/-! ## Claims about the countdown goroutine -/


/-- C4. For every `total` and every finite sequence of `select` outcomes delivered to
the countdown goroutine: once it has taken the cancellation arm, the only thing it still
does is `wg.Done()`, so it calls neither `Output` nor `OutputDone` afterwards; when it
returns, by either exit, it has called `wg.Done()` exactly once, as its last action, and
while it is still blocked in its `select` it has not called it. It returns exactly when a
cancellation was delivered or the ticks delivered make `current < total - 1` false. -/
theorem countdown_invariant (total : ℚ) (events : List Event) :
    (∀ pre post, (countdown total events).1 = pre ++ Action.stopObserved :: post →
        post = [Action.wgDone] ∧ ∀ a ∈ post, a.isRender = false)
      ∧ ((countdown total events).2 = true →
          (countdown total events).1.count Action.wgDone = 1
            ∧ (countdown total events).1.getLast? = some Action.wgDone)
      ∧ ((countdown total events).2 = false →
          (countdown total events).1.count Action.wgDone = 0)
      ∧ ((countdown total events).2 = true ↔
          (Event.stop ∈ events ∨ total - 1 ≤ (events.length : ℚ))) := by
  refine ⟨?_, ?_, ?_, ?_⟩
  · intro pre post h
    have hp := countdownLoop_after_stop total events (New total) pre post h
    refine ⟨hp, ?_⟩
    intro a ha
    rw [hp] at ha
    simp only [List.mem_singleton] at ha
    rw [ha]
    rfl
  · exact countdownLoop_done_of_returned total events (New total)
  · intro h
    exact (countdownLoop_no_done_of_blocked total events (New total) h).1
  · have h := countdownLoop_returned_iff total events (New total)
    simpa [countdown, New] using h

/-- C4, witness: with `total = 3`, a tick followed by a cancellation makes the goroutine
render twice, take the cancellation arm and return with exactly one `wg.Done()`, its last
action; nothing is rendered after the cancellation arm. -/
theorem countdown_invariant_witness :
    (countdown 3 [Event.tick, Event.stop]).2 = true
      ∧ (countdown 3 [Event.tick, Event.stop]).1.count Action.wgDone = 1
      ∧ (countdown 3 [Event.tick, Event.stop]).1.getLast? = some Action.wgDone
      ∧ (countdown 3 [Event.tick, Event.stop]).1
          = [Action.output (New 3),
              Action.increment ((New 3).Increment).1 ((New 3).Increment).2,
              Action.output ((New 3).Increment).1]
            ++ Action.stopObserved :: [Action.wgDone]
      ∧ Action.isRender Action.wgDone = false := by
  have h := countdown_invariant 3 [Event.tick, Event.stop]
  have hret : (countdown 3 [Event.tick, Event.stop]).2 = true :=
    h.2.2.2.mpr (Or.inl (by decide))
  have h0 : (New 3).current < 3 - 1 := by norm_num [New]
  have h1 : ((New 3).Increment).1.current < 3 - 1 := by
    rw [Increment_fst]
    norm_num [New]
  have hsplit : (countdown 3 [Event.tick, Event.stop]).1
      = [Action.output (New 3),
          Action.increment ((New 3).Increment).1 ((New 3).Increment).2,
          Action.output ((New 3).Increment).1]
        ++ Action.stopObserved :: [Action.wgDone] := by
    simp [countdown, countdownLoop, h0, h1]
  exact ⟨hret, (h.2.1 hret).1, (h.2.1 hret).2, hsplit,
    (h.1 _ _ hsplit).2 Action.wgDone (List.mem_singleton.mpr rfl)⟩

/-- C9. For every `total` and every sequence of `select` outcomes, each bar the
countdown goroutine hands to `Output` is the bar of `New(total)` advanced, with
`0 ≤ current < total - 1`; its `place` is strictly less than its width 70, so the number
of empty glyphs `width - place` is positive; every `Increment` inside the loop returns
`false` and leaves `current < total`. -/
theorem countdown_no_clamping (total : ℚ) (events : List Event) :
    (∀ b, Action.output b ∈ (countdown total events).1 →
        b.total = total ∧ b.width = 70 ∧ 0 < total
          ∧ 0 ≤ b.current ∧ b.current < b.total - 1 ∧ b.current < b.total
          ∧ b.place < b.width ∧ 0 < b.width - b.place
          ∧ 0 < (b.width - b.place).toNat)
      ∧ (∀ b fin, Action.increment b fin ∈ (countdown total events).1 →
          fin = false ∧ b.current < total) := by
  constructor
  · intro b hb
    have h := countdownLoop_output_inv total events (New total) (le_refl _) b hb
    obtain ⟨ht, hw, h0, hlt⟩ := h
    have ht1 : b.total = total := ht
    have hw1 : b.width = 70 := hw
    have hpos : 0 < b.total := by rw [ht1]; linarith
    have hcur : b.current < b.total := by rw [ht1]; linarith
    have hplace := place_lt_width b hpos h0 hcur (by rw [hw1]; decide)
    refine ⟨ht1, hw1, by linarith, h0, by rw [ht1]; exact hlt, hcur, hplace, ?_, ?_⟩
    · omega
    · omega
  · intro b fin hb
    exact countdownLoop_increment_inv total events (New total) rfl b fin hb

/-- C9, witness: with `total = 3` and two ticks, the first bar rendered is `New(3)`; its
`place` is below the width and the first `Increment` returns `false`. -/
theorem countdown_no_clamping_witness :
    Action.output (New 3) ∈ (countdown 3 [Event.tick, Event.tick]).1
      ∧ (New 3).place < (New 3).width
      ∧ 0 < (New 3).width - (New 3).place
      ∧ Action.increment ((New 3).Increment).1 ((New 3).Increment).2
          ∈ (countdown 3 [Event.tick, Event.tick]).1
      ∧ ((New 3).Increment).2 = false := by
  have h := countdown_no_clamping 3 [Event.tick, Event.tick]
  have hlt : (New 3).current < 3 - 1 := by norm_num [New]
  have hmem : Action.output (New 3) ∈ (countdown 3 [Event.tick, Event.tick]).1 := by
    simp [countdown, countdownLoop, hlt]
  have hmem2 : Action.increment ((New 3).Increment).1 ((New 3).Increment).2
      ∈ (countdown 3 [Event.tick, Event.tick]).1 := by
    simp [countdown, countdownLoop, hlt]
  have h1 := h.1 (New 3) hmem
  exact ⟨hmem, h1.2.2.2.2.2.2.1, h1.2.2.2.2.2.2.2.1, hmem2, (h.2 _ _ hmem2).1⟩

/-! ## Claims about the cancellation signal, the wait time and the file helpers -/


theorem timeUntil_neg_iff (now t : Int) : timeUntil now t < 0 ↔ t < now := by
  unfold timeUntil maxDuration minDuration
  split
  · constructor <;> intro h <;> omega
  · split
    · constructor <;> intro h <;> omega
    · constructor <;> intro h <;> omega

theorem closeStopCh_of_closed (s : WaitState) (hs : s.stopCh = ChanState.closed) :
    (closeStopCh s).panicked = some "close of closed channel"
      ∧ (closeStopCh s).closes = s.closes := by
  simp [closeStopCh, goClose, hs]

/-- C2. Closing the stop channel a second time is not a no-op: `close` of a closed
channel is the run-time panic "close of closed channel". In the execution where an
interrupt is delivered and the timer expires, the main `select` takes the timer arm and
closes `stopCh` (line 91), and the listener's `select` takes `case <-ch` and closes it
again (line 137), the process panics; likewise when the listener closes first and the
main flow second. -/
theorem stop_channel_double_close :
    goClose ChanState.closed = Except.error "close of closed channel"
      ∧ run [Move.osInterrupt, Move.timerExpires, Move.mainRecvTimer, Move.listenerRecvSig]
          SignalHandler.initial
        = some { stopCh := ChanState.closed
                 sigBuffered := false
                 notifying := true
                 timerReady := false
                 listener := ListenerPc.atSelect
                 mainPc := MainPc.waitAfterTimer
                 closes := 1
                 printed := 1
                 panicked := some "close of closed channel" }
      ∧ run [Move.osInterrupt, Move.timerExpires, Move.listenerRecvSig, Move.mainRecvTimer]
          SignalHandler.initial
        = some { stopCh := ChanState.closed
                 sigBuffered := false
                 notifying := false
                 timerReady := false
                 listener := ListenerPc.stopped
                 mainPc := MainPc.atSelect
                 closes := 1
                 printed := 1
                 panicked := some "close of closed channel" } :=
  ⟨rfl, by decide, by decide⟩

theorem GetWaitTime_of_earlier (t nowAtCheck nowAtReturn : Int) (h : t < nowAtCheck) :
    GetWaitTime (Except.ok t) nowAtCheck nowAtReturn
      = Except.ok (timeUntil nowAtReturn (t + hours24)) := by
  have hneg := (timeUntil_neg_iff nowAtCheck t).mpr h
  simp [GetWaitTime, hneg]

theorem GetWaitTime_of_not_earlier (t nowAtCheck nowAtReturn : Int) (h : nowAtCheck ≤ t) :
    GetWaitTime (Except.ok t) nowAtCheck nowAtReturn
      = Except.ok (timeUntil nowAtReturn t) := by
  have hneg : ¬ timeUntil nowAtCheck t < 0 := by
    rw [timeUntil_neg_iff]
    omega
  simp [GetWaitTime, hneg]

/-- C3. At the exact boundary the request is not treated as already passed. When the
clock read by the check of line 213 is the requested instant `t` itself,
`time.Until(t)` is `0`, which is not `< 0`: no 24 hours are added and `GetWaitTime`
returns the duration until `t` as read on line 219, whatever that later reading is. For
`t` = 2023-11-14 22:14:00 UTC and a second reading one millisecond later the result is
minus one millisecond, where the duration until `t + 24h` is 24 hours less one
millisecond. -/
theorem GetWaitTime_exact_boundary (t nowAtReturn : Int) :
    GetWaitTime (Except.ok t) t nowAtReturn = Except.ok (timeUntil nowAtReturn t)
      ∧ GetWaitTime (Except.ok 1700000040000000000) 1700000040000000000
          1700000040001000000 = Except.ok (-1000000)
      ∧ timeUntil 1700000040001000000 (1700000040000000000 + hours24) = 86399999000000 := by
  refine ⟨GetWaitTime_of_not_earlier t t nowAtReturn (le_refl t), ?_, ?_⟩
  · rw [GetWaitTime_of_not_earlier _ _ _ (le_refl _)]
    rfl
  · rfl

/-- C8. For every path that `os.Open` opens: when `filepath.Ext(path)` is none of
".mp3", ".flac", ".wav" (compared exactly), `DecodeSoundFile` returns no stream but the
error "failed to decode sound file: only [mp3, flac, wav] supported: unable to use file
'<base>'" with `<base>` the path's base name, and invokes no decoder; when it is one of
the three, exactly the matching decoder is invoked, and an error is returned exactly when
that decoder fails, the decoder's stream being returned otherwise. -/
theorem DecodeSoundFile_dispatch {File Stream Format : Type}
    (env : DecodeEnv File Stream Format) (path : String) (f : File)
    (hopen : env.osOpen path = Except.ok f) :
    (filepathExt path ≠ ".mp3" → filepathExt path ≠ ".flac" → filepathExt path ≠ ".wav" →
        (DecodeSoundFile env path).result
            = Except.error
                ("failed to decode sound file: only [mp3, flac, wav] supported: unable to use file \x27"
                  ++ filepathBase path ++ "\x27")
          ∧ (DecodeSoundFile env path).invoked = []
          ∧ (DecodeSoundFile env path).speakerInit = none)
      ∧ (∀ d : Decoder, filepathExt path = d.extension →
          (DecodeSoundFile env path).invoked = [d]
            ∧ ((∃ msg, (DecodeSoundFile env path).result = Except.error msg)
                ↔ ∃ msg, env.decode d f = Except.error msg)
            ∧ (∀ msg, env.decode d f = Except.error msg →
                (DecodeSoundFile env path).result
                  = Except.error ("failed to decode sound file: " ++ msg))
            ∧ (∀ s fmt, env.decode d f = Except.ok (s, fmt) →
                (DecodeSoundFile env path).result = Except.ok s)) := by
  constructor
  · intro h1 h2 h3
    have key : DecodeSoundFile env path
        = finishDecode []
            (Except.error ("only [mp3, flac, wav] supported: unable to use file \x27"
              ++ filepathBase path ++ "\x27")) := by
      simp only [DecodeSoundFile, hopen, h1, h2, h3, if_false]
    rw [key]
    refine ⟨?_, rfl, rfl⟩
    show Except.error _ = Except.error _
    congr 1
  · intro d hd
    have key : DecodeSoundFile env path = finishDecode [d] (env.decode d f) := by
      cases d <;> simp [DecodeSoundFile, hopen, hd, Decoder.extension]
    rw [key]
    cases hdec : env.decode d f with
    | error e => simp [finishDecode]
    | ok v =>
      obtain ⟨s, fmt⟩ := v
      simp [finishDecode]

/-- C8, witness: the file "alarm.ogg" is rejected, with a message naming 'alarm.ogg',
and no decoder runs; "alarm.mp3" goes to the mp3 decoder. -/
theorem DecodeSoundFile_dispatch_witness :
    permissiveEnv.osOpen "alarm.ogg" = Except.ok ()
      ∧ filepathExt "alarm.ogg" = ".ogg"
      ∧ (DecodeSoundFile permissiveEnv "alarm.ogg").result
        = Except.error
            "failed to decode sound file: only [mp3, flac, wav] supported: unable to use file \x27alarm.ogg\x27"
      ∧ (DecodeSoundFile permissiveEnv "alarm.ogg").invoked = []
      ∧ (DecodeSoundFile permissiveEnv "alarm.mp3").invoked = [Decoder.mp3] := by
  have h := (DecodeSoundFile_dispatch permissiveEnv "alarm.ogg" () rfl).1
    (by decide) (by decide) (by decide)
  have h2 := ((DecodeSoundFile_dispatch permissiveEnv "alarm.mp3" () rfl).2
    Decoder.mp3 (by decide)).1
  refine ⟨rfl, by decide, ?_, h.2.1, h2⟩
  rw [h.1]
  rfl

theorem ResolveFile_nonempty_no_panic (env : FsEnv) (path : String) (hne : path ≠ "")
    (msg : String) : ResolveFile env path ≠ Outcome.panic msg := by
  unfold ResolveFile
  rcases hd : path.data with _ | ⟨c, rest⟩
  · exact absurd (String.ext hd) hne
  · simp only
    split
    · cases env.userHome with
      | error e => simp
      | ok home =>
        simp only [resolveTail]
        split
        · simp
        · split <;> simp
    · simp only [resolveTail]
      split
      · simp
      · split <;> simp

/-- C10. The function `ResolveFile` is not total: on the empty path, whatever the
environment, the index expression `path[0]` of line 181 panics with an index out of
range, so neither a path nor an error value is returned. -/
theorem ResolveFile_empty_path (env : FsEnv) :
    ResolveFile env "" = Outcome.panic "index out of range [0] with length 0"
      ∧ (∀ file, ResolveFile env "" ≠ Outcome.ok file)
      ∧ (∀ msg, ResolveFile env "" ≠ Outcome.error msg) := by
  have h : ResolveFile env "" = Outcome.panic "index out of range [0] with length 0" := rfl
  refine ⟨h, ?_, ?_⟩
  · intro file
    rw [h]
    simp
  · intro msg
    rw [h]
    simp

end Golarm
